import Mathlib

/-
Verification of the rolling-window anomaly detector in src/Problem1.py
(the core of the EcoGuardianAI repository).

The Python module keeps a global dict
  buffers : (roomId, metric) -> deque of (ts, value)
with two operations:

  push_sample(roomId, metric, ts, value):
    buf = buffers.setdefault(key, deque()); buf.append((ts, value))
    cutoff = ts - timedelta(seconds=W_SECONDS)
    while buf and buf[0][0] < cutoff: buf.popleft()
    return check_anomaly(roomId, metric)

  check_anomaly(roomId, metric):
    buf = buffers.get(key)
    if not buf or len(buf) < 3: return None
    vals = [v for (_, v) in buf]; n = len(vals)
    mu = sum(vals)/n; var = sum((v-mu)**2)/n; sigma = sqrt(var)
    latest = vals[-1]; z = (latest - mu)/(sigma + EPS)
    if abs(z) > Z_THRESHOLD: return anomaly record (id built from utcnow)
    return None

Modelling choices, all from the source:
- timestamps are modelled as rationals (seconds); Python datetimes are
  linearly ordered instants and only compared / shifted by W_SECONDS;
- float values are modelled exactly: a value is either a finite rational
  or one of the IEEE non-finite values nan / +inf / -inf (the source has
  no validation, so non-finite values can enter a buffer);
- the wall clock read by datetime.utcnow() inside check_anomaly is an
  explicit integer parameter `now` (seconds since the epoch, as the
  source truncates with int(...));
- the square root is irrational in general, so the trigger test
  abs(z) > Z_THRESHOLD is embedded in its square-root-free form, proved
  equivalent to the real-number formula in `trigger_iff_real` below;
- the external sink call write_anomaly is pure I/O and not modelled
  (the record is still returned, as in the source); the record field
  "z" (a float) is omitted from the record structure because its exact
  value is irrational; every other field is kept.
-/

namespace EcoGuardian

/-- A Python float value as it can appear in a buffer: a finite rational
or one of the IEEE non-finite values. -/
inductive PFloat where
  | fin (q : ℚ)
  | nan
  | inf
  | ninf
deriving DecidableEq

/-- Finiteness test on modelled float values. -/
def PFloat.isFinite : PFloat → Bool
  | .fin _ => true
  | _ => false

/-- One buffered sample: (timestamp, value), as in the source deque. -/
abbrev Sample := ℚ × PFloat

/-- The global dict buffers: a key (roomId, metric) is either absent
(`none`, as with dict.get on a missing key) or holds a list of samples. -/
abbrev Buffers := String × String → Option (List Sample)

/-- The dict with no keys: every lookup misses. -/
def emptyBufs : Buffers := fun _ => none

/-- W_SECONDS = 30*60 from the source (rolling window length in seconds). -/
def W_SECONDS : ℚ := 30 * 60

/-- Z_THRESHOLD = 2.5 from the source. -/
def Z_THRESHOLD : ℚ := 5 / 2

/-- EPS = 1e-9 from the source. -/
def EPS : ℚ := 1 / 1000000000

/-- Extract the list of finite values of a value list; `none` as soon as
some value is non-finite.  In the source there is no such test: the float
arithmetic itself propagates the non-finite value into `z`, and every
comparison with nan is False, so a window containing a non-finite value
never triggers.  `check_anomaly` below uses this function to express that
derived behaviour. -/
def finVals : List PFloat → Option (List ℚ)
  | [] => some []
  | .fin q :: rest => (finVals rest).map (fun l => q :: l)
  | _ :: _ => none

/-- mu = sum(vals)/n from the source (population mean). -/
def mean (vals : List ℚ) : ℚ := vals.sum / (vals.length : ℚ)

/-- var = sum((v-mu)**2 for v in vals)/n from the source (population
variance). -/
def var (vals : List ℚ) : ℚ :=
  ((vals.map (fun v => (v - mean vals) ^ 2)).sum) / (vals.length : ℚ)

/-- The decision abs(z) > Z_THRESHOLD with z = (latest - mu)/(sigma + EPS)
and sigma = sqrt(var), written without the square root so that it is exact
rational arithmetic: with d = |latest - mu|, the condition
d > T*(sigma + EPS) holds iff T*EPS < d and T^2 * var < (d - T*EPS)^2.
The equivalence with the real-number formula of the source is proved in
`trigger_iff_real`. -/
def trigger (vals : List ℚ) : Bool :=
  let d := |vals.getLastD 0 - mean vals|
  decide (Z_THRESHOLD * EPS < d ∧
    Z_THRESHOLD ^ 2 * var vals < (d - Z_THRESHOLD * EPS) ^ 2)

/-- The anomaly record built by check_anomaly.  Fields are those of the
source dict; tsStart/tsEnd hold the timestamps themselves (the source
stores their isoformat strings, an injective rendering); the float field
"z" is omitted because its exact value is irrational. -/
structure Anomaly where
  id : String
  roomId : String
  tsStart : ℚ
  tsEnd : ℚ
  metric : String
  value : ℚ
  reason : String
deriving DecidableEq

/-- check_anomaly(roomId, metric) from the source, with the global dict
and the utcnow() reading passed explicitly.  The branch on a window
containing a non-finite value returns none: in the source the stats and z
become nan (or the comparison is between nan and the threshold), and
abs(nan) > Z_THRESHOLD is False. -/
def check_anomaly (now : ℤ) (bufs : Buffers) (roomId metric : String) :
    Option Anomaly :=
  match bufs (roomId, metric) with
  | none => none
  | some buf =>
    if buf.length < 3 then none
    else
      match finVals (buf.map Prod.snd) with
      | none => none
      | some vals =>
        if trigger vals then
          some
            { id := "anom-" ++ roomId ++ "-" ++ metric ++ "-" ++ toString now
              roomId := roomId
              tsStart := (buf.headD (0, .fin 0)).1
              tsEnd := (buf.getLastD (0, .fin 0)).1
              metric := metric
              value := vals.getLastD 0
              reason := "rolling-z" }
        else none

/-- The purge loop: while buf and buf[0][0] < cutoff: buf.popleft(). -/
def evict (cutoff : ℚ) (buf : List Sample) : List Sample :=
  buf.dropWhile (fun s => decide (s.1 < cutoff))

/-- Append then purge, on one key's buffer: buf.append((ts, value));
cutoff = ts - W_SECONDS; purge from the front. -/
def push_buf (buf : List Sample) (ts : ℚ) (value : PFloat) : List Sample :=
  evict (ts - W_SECONDS) (buf ++ [(ts, value)])

/-- push_sample(roomId, metric, ts, value) from the source: update the
dict at the key (creating the buffer if absent, as setdefault does), then
evaluate the updated window; returns the new dict and check_anomaly's
result. -/
def push_sample (now : ℤ) (bufs : Buffers) (roomId metric : String)
    (ts : ℚ) (value : PFloat) : Buffers × Option Anomaly :=
  let key := (roomId, metric)
  let bufs1 : Buffers := fun k =>
    if k = key then some (push_buf ((bufs key).getD []) ts value) else bufs k
  (bufs1, check_anomaly now bufs1 roomId metric)

/-- Folding push_buf over a list of samples: the buffer of one key after
ingesting the whole list, starting from an empty buffer. -/
def ingestBuf (l : List Sample) : List Sample :=
  l.foldl (fun b s => push_buf b s.1 s.2) []

/-- Ingest a list of samples for one key, collecting the result of every
push_sample call in order. -/
def ingestList (now : ℤ) (bufs : Buffers) (roomId metric : String) :
    List (ℚ × PFloat) → Buffers × List (Option Anomaly)
  | [] => (bufs, [])
  | s :: tl =>
    let step := push_sample now bufs roomId metric s.1 s.2
    let rest := ingestList now step.1 roomId metric tl
    (rest.1, step.2 :: rest.2)

/-- Timestamp order on samples (ordered-by-arrival buffers of a
monotone stream are sorted under this relation). -/
def tsLE (a b : Sample) : Prop := a.1 ≤ b.1

instance : DecidableRel tsLE :=
  fun a b => inferInstanceAs (Decidable (a.1 ≤ b.1))

/-- A window of ten samples in which nine values are 10 and the latest is
100: mean 19, variance 729, sigma 27, z = 81/(27 + 1e-9), which exceeds
the threshold 2.5, so check_anomaly produces a record on this buffer. -/
def bufTen : List Sample :=
  [(0, .fin 10), (1, .fin 10), (2, .fin 10), (3, .fin 10), (4, .fin 10),
   (5, .fin 10), (6, .fin 10), (7, .fin 10), (8, .fin 10), (9, .fin 100)]

/-- A dict holding bufTen at key ("A", "co2") and nothing else. -/
def stTen : Buffers := fun k => if k = ("A", "co2") then some bufTen else none

/-- The record check_anomaly builds on stTen when the wall clock reads 0. -/
def anomTen : Anomaly :=
  { id := "anom-A-co2-0"
    roomId := "A"
    tsStart := 0
    tsEnd := 9
    metric := "co2"
    value := 100
    reason := "rolling-z" }

/-- A dict holding two samples at key ("A", "co2") and nothing else. -/
def stTwo : Buffers :=
  fun k => if k = ("A", "co2") then some [(0, .fin 1), (1, .fin 2)] else none

/-- The value sequence check_anomaly reads from one key's window
(empty when the window holds a non-finite value or the key is absent). -/
def windowVals (bufs : Buffers) (roomId metric : String) : List ℚ :=
  (finVals (((bufs (roomId, metric)).getD []).map Prod.snd)).getD []

/-- Ingest, from the empty dict, one sample of value v for key
("A", "co2") at each timestamp of tsl, in order. -/
def constRun (v : ℚ) (tsl : List ℚ) : Buffers × List (Option Anomaly) :=
  ingestList 0 emptyBufs "A" "co2" (tsl.map (fun t => (t, PFloat.fin v)))

/- The Batteries library marks the rational-number field operations
irreducible for the elaborator; reducibility is restored locally so that
concrete runs of the model can be settled by kernel evaluation. -/
attribute [local semireducible] Rat.add Rat.sub Rat.mul Rat.inv Rat.ofScientific

/-- Dropping a prefix leaves a suffix of the original list. -/
theorem dropWhile_isSuffix {α : Type} (p : α → Bool) (l : List α) :
    (l.dropWhile p).IsSuffix l := by
  induction l with
  | nil => exact List.suffix_refl []
  | cons x xs ih =>
    by_cases h : p x
    · rw [List.dropWhile_cons_of_pos h]
      exact ih.trans (List.suffix_cons x xs)
    · rw [List.dropWhile_cons_of_neg h]

/-- The sample being appended never satisfies its own cutoff test:
its timestamp is not below ts - W_SECONDS. -/
theorem appended_not_stale (ts : ℚ) (v : PFloat) :
    (decide ((ts, v).1 < ts - W_SECONDS)) = false := by
  simp only [decide_eq_false_iff_not, not_lt, W_SECONDS]
  norm_num

/-- On a buffer sorted by timestamp, the purge loop removes exactly the
samples strictly older than the cutoff: its result is the filter keeping
every sample with cutoff ≤ timestamp. -/
theorem evict_sorted (c : ℚ) (l : List Sample) (hs : List.Pairwise tsLE l) :
    evict c l = l.filter (fun s => decide (c ≤ s.1)) := by
  induction l with
  | nil => rfl
  | cons x xs ih =>
    rcases List.pairwise_cons.mp hs with ⟨hx, hxs⟩
    by_cases hlt : x.1 < c
    · have h1 : evict c (x :: xs) = evict c xs := by
        simp [evict, List.dropWhile_cons, hlt]
      rw [h1, ih hxs, List.filter_cons]
      simp [not_le.mpr hlt]
    · have hcx : c ≤ x.1 := not_lt.mp hlt
      have h1 : evict c (x :: xs) = x :: xs := by
        simp [evict, List.dropWhile_cons, hlt]
      have h2 : ∀ s ∈ xs, (fun s : Sample => decide (c ≤ s.1)) s = true := by
        intro s hsx
        simp only [decide_eq_true_iff]
        exact le_trans hcx (hx s hsx)
      rw [h1, List.filter_cons]
      simp [hcx, List.filter_eq_self.mpr h2]

/-- Appending a sample at least as new as the whole sorted buffer and
purging yields: the old samples inside the new cutoff, then the new
sample. -/
theorem push_buf_eq_filter (buf : List Sample) (ts : ℚ) (v : PFloat)
    (hs : List.Pairwise tsLE buf) (hle : ∀ s ∈ buf, s.1 ≤ ts) :
    push_buf buf ts v =
      buf.filter (fun s => decide (ts - W_SECONDS ≤ s.1)) ++ [(ts, v)] := by
  have hsorted : List.Pairwise tsLE (buf ++ [(ts, v)]) := by
    rw [List.pairwise_append]
    refine ⟨hs, List.pairwise_singleton _ _, ?_⟩
    intro a ha b hb
    rw [List.mem_singleton] at hb
    subst hb
    exact hle a ha
  rw [push_buf, evict_sorted _ _ hsorted, List.filter_append]
  congr 1
  rw [List.filter_cons]
  have : (ts - W_SECONDS ≤ (ts, v).1) := by
    simp only [W_SECONDS]
    norm_num
  simp [this]

/-- The purge loop never removes the sample just appended: the buffer
after a push is nonempty and ends with the new sample. -/
theorem push_buf_getLast (buf : List Sample) (ts : ℚ) (v : PFloat) :
    (push_buf buf ts v).getLast? = some (ts, v) := by
  rw [push_buf, evict, List.dropWhile_append]
  by_cases h : (List.dropWhile (fun s => decide (s.1 < ts - W_SECONDS)) buf).isEmpty
  · rw [if_pos h, List.dropWhile_cons_of_neg (by simp [appended_not_stale]; norm_num [W_SECONDS])]
    rfl
  · rw [if_neg h, List.getLast?_concat]

/-- The buffer after a push is never empty. -/
theorem push_buf_ne_nil (buf : List Sample) (ts : ℚ) (v : PFloat) :
    push_buf buf ts v ≠ [] := by
  intro h
  have := push_buf_getLast buf ts v
  rw [h] at this
  exact Option.noConfusion this

/-- The purge loop removes only from the front: a pushed buffer is a
suffix of the buffer with the new sample appended. -/
theorem push_buf_isSuffix (buf : List Sample) (ts : ℚ) (v : PFloat) :
    (push_buf buf ts v).IsSuffix (buf ++ [(ts, v)]) :=
  dropWhile_isSuffix _ _

/-- C5: for every window holding fewer than 3 samples, check_anomaly
returns none: no anomaly record is ever produced from a window of 1 or 2
samples. -/
theorem c5_min_sample_gate (now : ℤ) (bufs : Buffers) (roomId metric : String)
    (buf : List Sample) (hb : bufs (roomId, metric) = some buf)
    (hl : buf.length < 3) :
    check_anomaly now bufs roomId metric = none := by
  unfold check_anomaly
  rw [hb]
  simp [hl]

/-- C5 witness: a concrete two-sample window yields none. -/
theorem c5_min_sample_gate_witness :
    stTwo ("A", "co2") = some [(0, .fin 1), (1, .fin 2)] ∧
      ([((0 : ℚ), PFloat.fin 1), (1, .fin 2)]).length < 3 ∧
      check_anomaly 0 stTwo "A" "co2" = none :=
  ⟨by decide, by decide,
    c5_min_sample_gate 0 stTwo "A" "co2" [(0, .fin 1), (1, .fin 2)]
      (by decide) (by decide)⟩

/-- C8: after every push the window is non-empty, it ends with the sample
just appended (so that sample is never evicted by its own cutoff), and
eviction removed samples only from the front: the result is a suffix of
the appended buffer. -/
theorem c8_nonempty_after_push (buf : List Sample) (ts : ℚ) (v : PFloat) :
    push_buf buf ts v ≠ [] ∧
      (push_buf buf ts v).getLast? = some (ts, v) ∧
      (push_buf buf ts v).IsSuffix (buf ++ [(ts, v)]) :=
  ⟨push_buf_ne_nil buf ts v, push_buf_getLast buf ts v,
    push_buf_isSuffix buf ts v⟩

/-- C9: pushing a sample for one key mutates only that key's window:
the window of every other key is left unchanged. -/
theorem c9_key_isolation (now : ℤ) (bufs : Buffers) (roomId metric r2 m2 : String)
    (ts : ℚ) (v : PFloat) (h : (r2, m2) ≠ (roomId, metric)) :
    (push_sample now bufs roomId metric ts v).1 (r2, m2) = bufs (r2, m2) := by
  simp only [push_sample]
  rw [if_neg h]

/-- C9 witness: pushing onto ("A", "co2") leaves ("B", "co2") (other
entity, same metric) and ("A", "humidity") (same entity, other metric)
unchanged. -/
theorem c9_key_isolation_witness :
    (("B", "co2") ≠ ("A", "co2") ∧
      (push_sample 0 stTen "A" "co2" 10 (.fin 10)).1 ("B", "co2") =
        stTen ("B", "co2")) ∧
    (("A", "humidity") ≠ ("A", "co2") ∧
      (push_sample 0 stTen "A" "co2" 10 (.fin 10)).1 ("A", "humidity") =
        stTen ("A", "humidity")) :=
  ⟨⟨by decide, c9_key_isolation 0 stTen "A" "co2" "B" "co2" 10 (.fin 10) (by decide)⟩,
    ⟨by decide, c9_key_isolation 0 stTen "A" "co2" "A" "humidity" 10 (.fin 10) (by decide)⟩⟩

/-- C10: evaluating a key that was never ingested (dict lookup misses) or
whose buffer is empty returns none rather than failing: the non-empty
precondition is guarded by the same falsiness test as the size gate. -/
theorem c10_total_without_samples (now : ℤ) (bufs : Buffers)
    (roomId metric : String)
    (h : bufs (roomId, metric) = none ∨ bufs (roomId, metric) = some []) :
    check_anomaly now bufs roomId metric = none := by
  unfold check_anomaly
  rcases h with h | h
  · rw [h]
  · rw [h]
    simp

/-- C10 witness: a never-ingested key on the empty dict evaluates to
none. -/
theorem c10_total_without_samples_witness :
    emptyBufs ("A", "co2") = none ∧ check_anomaly 0 emptyBufs "A" "co2" = none :=
  ⟨rfl, c10_total_without_samples 0 emptyBufs "A" "co2" (Or.inl rfl)⟩

/-- C2 counterexample: pushing the non-finite value nan for a fresh key
is not rejected: no error is reported (the call returns the ordinary
no-anomaly result none) and the sample IS appended, so the Window Store
for the key is mutated, contrary to the claim. -/
theorem c2_counterexample :
    (push_sample 0 emptyBufs "A" "co2" 0 PFloat.nan).1 ("A", "co2") =
        some [(0, PFloat.nan)] ∧
      emptyBufs ("A", "co2") = none ∧
      (push_sample 0 emptyBufs "A" "co2" 0 PFloat.nan).2 = none := by
  refine ⟨by decide, rfl, by decide⟩

/-- C2 amended: push_sample performs no validation at all: every value,
finite or not, is appended to the key's window (which therefore changes),
and evaluation proceeds on the updated window; no InvalidSample error
exists in the code. -/
theorem c2_nonfinite_appended (now : ℤ) (bufs : Buffers)
    (roomId metric : String) (ts : ℚ) (v : PFloat)
    (hv : v.isFinite = false) :
    ((push_sample now bufs roomId metric ts v).1 (roomId, metric)).getD [] ≠ [] ∧
      (((push_sample now bufs roomId metric ts v).1 (roomId, metric)).getD
          []).getLast? = some (ts, v) ∧
      (push_sample now bufs roomId metric ts v).2 =
        check_anomaly now (push_sample now bufs roomId metric ts v).1
          roomId metric := by
  have hkey : (push_sample now bufs roomId metric ts v).1 (roomId, metric) =
      some (push_buf ((bufs (roomId, metric)).getD []) ts v) := by
    simp [push_sample]
  refine ⟨?_, ?_, rfl⟩
  · rw [hkey]
    exact push_buf_ne_nil _ ts v
  · rw [hkey]
    exact push_buf_getLast _ ts v

/-- C7 counterexample: with out-of-order arrival the eviction half of the
claim fails.  Ingest (-1800, 1), then the older (-1801, 2), then (0, 3):
the cutoff of the last push is 0 - W_SECONDS = -1800, the front sample
sits exactly on the cutoff so the purge loop stops at once, and the
sample at -1801 - strictly older than the cutoff - stays in the window
instead of being evicted. -/
theorem c7_counterexample :
    ingestBuf [(-1800, .fin 1), (-1801, .fin 2), (0, .fin 3)] =
        [(-1800, .fin 1), (-1801, .fin 2), (0, .fin 3)] ∧
      ((-1801 : ℚ), PFloat.fin 2) ∈
        ingestBuf [(-1800, .fin 1), (-1801, .fin 2), (0, .fin 3)] ∧
      (-1801 : ℚ) < 0 - W_SECONDS := by
  refine ⟨by decide, by decide, by decide⟩

/-- C7 amended: for a window whose retained samples all carry timestamps
at most the incoming timestamp ts and are ordered (in-order arrival), the
boundary is inclusive: the push keeps exactly the old samples with
timestamp ≥ ts - W_SECONDS - so a sample at exactly ts - W_SECONDS is
retained and every strictly older one is evicted - followed by the new
sample.  Out-of-order windows keep the retention half only, as the
counterexample shows. -/
theorem c7_boundary_inclusive (buf : List Sample) (ts : ℚ) (v : PFloat)
    (hs : List.Pairwise tsLE buf) (hle : ∀ s ∈ buf, s.1 ≤ ts) :
    push_buf buf ts v =
      buf.filter (fun s => decide (ts - W_SECONDS ≤ s.1)) ++ [(ts, v)] :=
  push_buf_eq_filter buf ts v hs hle

/-- C7 amended witness: pushing ts = 0 onto a sorted window holding a
sample one second older than the boundary and one exactly on it keeps the
boundary sample and drops the older one. -/
theorem c7_boundary_inclusive_witness :
    List.Pairwise tsLE [((-1801 : ℚ), PFloat.fin 1), (-1800, .fin 2)] ∧
      (∀ s ∈ [((-1801 : ℚ), PFloat.fin 1), (-1800, .fin 2)], s.1 ≤ (0 : ℚ)) ∧
      push_buf [((-1801 : ℚ), PFloat.fin 1), (-1800, .fin 2)] 0 (.fin 3) =
        [((-1800 : ℚ), PFloat.fin 2), (0, .fin 3)] := by
  refine ⟨by decide, by decide, ?_⟩
  rw [c7_boundary_inclusive [((-1801 : ℚ), PFloat.fin 1), (-1800, .fin 2)] 0
    (.fin 3) (by decide) (by decide)]
  decide

/-- C3 counterexample: ingest (1000, 1), then the out-of-order (0, 1),
then (2000, 1) for one key.  The cutoff of the last ingestion is
2000 - W_SECONDS = 200, the front sample (1000) is inside the window so
the purge loop stops, and the stale sample with timestamp 0 < 200 is
still retained: the retained set is not exactly the samples with
timestamp ≥ latest - W_SECONDS. -/
theorem c3_counterexample :
    (ingestList 0 emptyBufs "A" "co2"
          [(1000, .fin 1), (0, .fin 1), (2000, .fin 1)]).1 ("A", "co2") =
        some [(1000, .fin 1), (0, .fin 1), (2000, .fin 1)] ∧
      (0 : ℚ) < 2000 - W_SECONDS := by
  refine ⟨by decide, by decide⟩

/-- C3 amended: for a monotone (timestamp-sorted) ingestion sequence
ending with sample a, the retained window after the last ingestion is
exactly the ingested samples with timestamp ≥ a's timestamp - W_SECONDS;
every prefix of a sorted sequence is sorted, so this settles the window
after each ingestion.  For out-of-order sequences the exactness fails, as
the counterexample shows. -/
theorem c3_window_exact_monotone (l : List Sample) (a : Sample)
    (hs : List.Pairwise tsLE (l ++ [a])) :
    ingestBuf (l ++ [a]) =
      (l ++ [a]).filter (fun s => decide (a.1 - W_SECONDS ≤ s.1)) := by
  induction l using List.reverseRecOn generalizing a with
  | nil =>
    have h0 : ingestBuf [a] = push_buf [] a.1 a.2 := rfl
    rw [List.nil_append, h0,
      push_buf_eq_filter [] a.1 a.2 (List.Pairwise.nil) (by simp)]
    have ha : (fun s : Sample => decide (a.1 - W_SECONDS ≤ s.1)) a = true := by
      simp only [decide_eq_true_iff, W_SECONDS]
      norm_num
    simp [List.filter_cons, ha]
    norm_num [W_SECONDS]
  | append_singleton l' b ih =>
    have h1 : List.Pairwise tsLE (l' ++ [b]) :=
      List.Pairwise.sublist (List.sublist_append_left _ _) hs
    have h2 : ∀ s ∈ l' ++ [b], s.1 ≤ a.1 := by
      intro s hsmem
      have := (List.pairwise_append.mp hs).2.2 s hsmem a (List.mem_singleton_self a)
      exact this
    have hba : b.1 ≤ a.1 := h2 b (by simp)
    have hfold : ingestBuf ((l' ++ [b]) ++ [a]) =
        push_buf (ingestBuf (l' ++ [b])) a.1 a.2 := by
      unfold ingestBuf
      rw [List.foldl_append]
      rfl
    rw [hfold, ih b h1]
    rw [push_buf_eq_filter _ a.1 a.2
      (List.Pairwise.sublist (List.filter_sublist _) h1)
      (fun s hsf => h2 s ((List.filter_sublist _).subset hsf))]
    rw [List.filter_filter]
    have hcongr :
        (l' ++ [b]).filter
            (fun s => decide (a.1 - W_SECONDS ≤ s.1) &&
              decide (b.1 - W_SECONDS ≤ s.1)) =
          (l' ++ [b]).filter (fun s => decide (a.1 - W_SECONDS ≤ s.1)) := by
      apply List.filter_congr
      intro x _
      by_cases hx : a.1 - W_SECONDS ≤ x.1
      · have hbx : b.1 - W_SECONDS ≤ x.1 :=
          le_trans (by linarith) hx
        simp [hx, hbx]
      · simp [hx]
    rw [hcongr]
    have ha : (fun s : Sample => decide (a.1 - W_SECONDS ≤ s.1)) a = true := by
      simp only [decide_eq_true_iff, W_SECONDS]
      norm_num
    rw [List.filter_append ((l' ++ [b])) [a]]
    simp [List.filter_cons, ha]
    norm_num [W_SECONDS]

/-- C3 amended witness: a sorted three-sample ingestion keeps exactly the
samples inside the trailing window of the last timestamp. -/
theorem c3_window_exact_monotone_witness :
    List.Pairwise tsLE
        ([((0 : ℚ), PFloat.fin 1), (1000, .fin 2)] ++ [(2000, .fin 3)]) ∧
      ingestBuf ([((0 : ℚ), PFloat.fin 1), (1000, .fin 2)] ++ [(2000, .fin 3)]) =
        [((1000 : ℚ), PFloat.fin 2), (2000, .fin 3)] := by
  refine ⟨by decide, ?_⟩
  rw [c3_window_exact_monotone [((0 : ℚ), PFloat.fin 1), (1000, .fin 2)]
    (2000, .fin 3) (by decide)]
  decide

/-- C2 amended witness: the nan sample is appended and evaluation still
runs. -/
theorem c2_nonfinite_appended_witness :
    PFloat.nan.isFinite = false ∧
      ((push_sample 0 emptyBufs "A" "co2" 0 PFloat.nan).1 ("A", "co2")).getD []
          ≠ [] ∧
      (((push_sample 0 emptyBufs "A" "co2" 0 PFloat.nan).1 ("A", "co2")).getD
          []).getLast? = some ((0 : ℚ), PFloat.nan) ∧
      (push_sample 0 emptyBufs "A" "co2" 0 PFloat.nan).2 =
        check_anomaly 0 (push_sample 0 emptyBufs "A" "co2" 0 PFloat.nan).1
          "A" "co2" :=
  ⟨rfl, (c2_nonfinite_appended 0 emptyBufs "A" "co2" 0 PFloat.nan rfl).1,
    (c2_nonfinite_appended 0 emptyBufs "A" "co2" 0 PFloat.nan rfl).2.1,
    (c2_nonfinite_appended 0 emptyBufs "A" "co2" 0 PFloat.nan rfl).2.2⟩

/-- A list whose members all equal v sums to length times v. -/
theorem sum_const (l : List ℚ) (v : ℚ) (h : ∀ x ∈ l, x = v) :
    l.sum = (l.length : ℚ) * v := by
  induction l with
  | nil => simp
  | cons x xs ih =>
    have hx : x = v := h x (by simp)
    have hxs : xs.sum = (xs.length : ℚ) * v := ih (fun y hy => h y (by simp [hy]))
    simp only [List.sum_cons, hx, hxs, List.length_cons]
    push_cast
    ring

/-- The mean of a nonempty constant list is that constant. -/
theorem mean_const (l : List ℚ) (v : ℚ) (hne : l ≠ []) (h : ∀ x ∈ l, x = v) :
    mean l = v := by
  have hlen : (l.length : ℚ) ≠ 0 := by
    have h0 : l.length ≠ 0 := fun h => hne (List.length_eq_zero.mp h)
    exact Nat.cast_ne_zero.mpr h0
  rw [mean, sum_const l v h, mul_comm, mul_div_assoc, div_self hlen, mul_one]

/-- The last entry of a nonempty list (with fallback) is a member. -/
theorem getLastD_mem (l : List ℚ) (hne : l ≠ []) : l.getLastD 0 ∈ l := by
  rw [List.getLastD_eq_getLast?, List.getLast?_eq_getLast l hne]
  exact List.getLast_mem hne

/-- On a nonempty constant window the deviation of the latest value from
the mean is 0, so the trigger test fails: z would need to exceed 2.5 but
Z_THRESHOLD * EPS < 0 is false. -/
theorem trigger_const (vals : List ℚ) (v : ℚ) (hne : vals ≠ [])
    (hall : ∀ x ∈ vals, x = v) : trigger vals = false := by
  have hlast : vals.getLastD 0 = v := hall _ (getLastD_mem vals hne)
  have hmean : mean vals = v := mean_const vals v hne hall
  simp only [trigger, hlast, hmean, sub_self, abs_zero]
  rw [decide_eq_false_iff_not]
  rintro ⟨h1, -⟩
  norm_num [Z_THRESHOLD, EPS] at h1

/-- On an all-finite constant value list, finVals extracts the constant
list. -/
theorem finVals_const (pl : List PFloat) (v : ℚ)
    (h : ∀ p ∈ pl, p = PFloat.fin v) :
    finVals pl = some (pl.map (fun _ => v)) := by
  induction pl with
  | nil => rfl
  | cons p ps ih =>
    have hp : p = PFloat.fin v := h p (by simp)
    subst hp
    rw [show finVals (PFloat.fin v :: ps) = (finVals ps).map (fun l => v :: l)
      from rfl]
    rw [ih (fun q hq => h q (by simp [hq]))]
    rfl

/-- A window whose values are all the same finite value never produces an
anomaly record. -/
theorem check_const_none (now : ℤ) (bufs : Buffers) (roomId metric : String)
    (buf : List Sample) (v : ℚ) (hb : bufs (roomId, metric) = some buf)
    (hv : ∀ s ∈ buf, s.2 = PFloat.fin v) :
    check_anomaly now bufs roomId metric = none := by
  unfold check_anomaly
  rw [hb]
  by_cases hlen : buf.length < 3
  · simp [hlen]
  · have hfv : finVals (buf.map Prod.snd) =
        some ((buf.map Prod.snd).map (fun _ => v)) :=
      finVals_const _ v (by
        intro p hp
        rcases List.mem_map.mp hp with ⟨s, hsmem, rfl⟩
        exact hv s hsmem)
    have hbne : buf ≠ [] := by
      intro h
      subst h
      simp at hlen
    have htr : trigger ((buf.map Prod.snd).map (fun _ => v)) = false :=
      trigger_const _ v (by simpa using hbne) (by
        intro x hx
        rcases List.mem_map.mp hx with ⟨s, _, rfl⟩
        rfl)
    have htr2 : trigger (List.map ((fun _ => v) ∘ Prod.snd) buf) = false := by
      rw [← List.map_map]
      exact htr
    simp [hlen, hfv, htr2]

/-- The store of one key after ingesting a list is the fold of push_buf
over the list, starting from that key's previous (possibly absent)
buffer. -/
theorem ingestList_store_key (now : ℤ) (roomId metric : String) :
    ∀ (l : List (ℚ × PFloat)) (bufs : Buffers),
      (ingestList now bufs roomId metric l).1 (roomId, metric) =
        l.foldl (fun ob s => some (push_buf (ob.getD []) s.1 s.2))
          (bufs (roomId, metric)) := by
  intro l
  induction l with
  | nil => intro bufs; rfl
  | cons s tl ih =>
    intro bufs
    rw [show (ingestList now bufs roomId metric (s :: tl)).1 =
      (ingestList now (push_sample now bufs roomId metric s.1 s.2).1 roomId
        metric tl).1 from rfl]
    rw [ih, List.foldl_cons]
    congr 1
    simp [push_sample]

/-- Folding pushes of all-constant finite samples yields a nonempty
buffer of all-constant samples. -/
theorem fold_push_const (v : ℚ) :
    ∀ (l : List (ℚ × PFloat)) (ob : Option (List Sample)), l ≠ [] →
      (∀ s ∈ l, s.2 = PFloat.fin v) →
      (∀ s ∈ ob.getD [], s.2 = PFloat.fin v) →
      ∃ buf,
        l.foldl (fun ob s => some (push_buf (ob.getD []) s.1 s.2)) ob =
            some buf ∧
          buf ≠ [] ∧ ∀ s ∈ buf, s.2 = PFloat.fin v := by
  intro l
  induction l with
  | nil => intro ob h; exact absurd rfl h
  | cons s tl ih =>
    intro ob _ hl hob
    have hnew : ∀ t ∈ push_buf (ob.getD []) s.1 s.2, t.2 = PFloat.fin v := by
      intro t ht
      have hmem := (push_buf_isSuffix (ob.getD []) s.1 s.2).sublist.subset ht
      rcases List.mem_append.mp hmem with h | h
      · exact hob t h
      · rw [List.mem_singleton] at h
        subst h
        exact hl s (by simp)
    rw [List.foldl_cons]
    by_cases htl : tl = []
    · subst htl
      exact ⟨push_buf (ob.getD []) s.1 s.2, rfl, push_buf_ne_nil _ _ _, hnew⟩
    · exact ih (some (push_buf (ob.getD []) s.1 s.2)) htl
        (fun t ht => hl t (by simp [ht])) (by simpa using hnew)

/-- Every evaluation during an ingestion run of all-constant finite
samples returns none. -/
theorem ingest_const_results (now : ℤ) (roomId metric : String) (v : ℚ) :
    ∀ (l : List (ℚ × PFloat)) (bufs : Buffers),
      (∀ s ∈ l, s.2 = PFloat.fin v) →
      (∀ buf, bufs (roomId, metric) = some buf →
        ∀ s ∈ buf, s.2 = PFloat.fin v) →
      (ingestList now bufs roomId metric l).2 = List.replicate l.length none := by
  intro l
  induction l with
  | nil => intro bufs _ _; rfl
  | cons s tl ih =>
    intro bufs hl hP
    have hnew : ∀ t ∈
        push_buf ((bufs (roomId, metric)).getD []) s.1 s.2,
        t.2 = PFloat.fin v := by
      intro t ht
      have hmem :=
        (push_buf_isSuffix ((bufs (roomId, metric)).getD []) s.1 s.2).sublist.subset ht
      rcases List.mem_append.mp hmem with h | h
      · rcases hbuf : bufs (roomId, metric) with _ | b
        · rw [hbuf] at h
          simp at h
        · rw [hbuf] at h
          exact hP b hbuf t (by simpa using h)
      · rw [List.mem_singleton] at h
        subst h
        exact hl s (by simp)
    have hkey : (push_sample now bufs roomId metric s.1 s.2).1 (roomId, metric) =
        some (push_buf ((bufs (roomId, metric)).getD []) s.1 s.2) := by
      simp [push_sample]
    have hres : (push_sample now bufs roomId metric s.1 s.2).2 = none := by
      rw [show (push_sample now bufs roomId metric s.1 s.2).2 =
        check_anomaly now (push_sample now bufs roomId metric s.1 s.2).1
          roomId metric from rfl]
      exact check_const_none now _ roomId metric _ v hkey hnew
    have hP1 : ∀ buf,
        (push_sample now bufs roomId metric s.1 s.2).1 (roomId, metric) =
          some buf → ∀ t ∈ buf, t.2 = PFloat.fin v := by
      intro buf hbuf
      rw [hkey] at hbuf
      injection hbuf with hbuf
      subst hbuf
      exact hnew
    rw [show (ingestList now bufs roomId metric (s :: tl)).2 =
      (push_sample now bufs roomId metric s.1 s.2).2 ::
        (ingestList now (push_sample now bufs roomId metric s.1 s.2).1
          roomId metric tl).2 from rfl]
    rw [hres, ih _ (fun t ht => hl t (by simp [ht])) hP1]
    rfl

/-- C6: ingesting N ≥ 3 samples of one identical finite value v for one
key never triggers an anomaly - every one of the N evaluations returns
none - and on the final window the z-score of the source formula,
(latest - mean) / (sqrt(var) + EPS), is exactly 0 (the EPS in the
denominator keeps the division well-defined even though sigma = 0). -/
theorem c6_constant_never_anomalous (v : ℚ) (tsl : List ℚ)
    (h3 : 3 ≤ tsl.length) :
    (constRun v tsl).2 = List.replicate tsl.length none ∧
      ((v : ℝ) - ((mean (windowVals (constRun v tsl).1 "A" "co2") : ℚ) : ℝ)) /
          (Real.sqrt ((var (windowVals (constRun v tsl).1 "A" "co2") : ℚ) : ℝ) +
            ((EPS : ℚ) : ℝ)) = 0 := by
  have hlv : ∀ s ∈ tsl.map (fun t => ((t : ℚ), PFloat.fin v)),
      s.2 = PFloat.fin v := by
    intro s hs
    rcases List.mem_map.mp hs with ⟨t, _, rfl⟩
    rfl
  have hempty : ∀ buf, emptyBufs ("A", "co2") = some buf →
      ∀ s ∈ buf, s.2 = PFloat.fin v := by
    intro buf h
    exact absurd h (by simp [emptyBufs])
  constructor
  · rw [show (constRun v tsl).2 =
      (ingestList 0 emptyBufs "A" "co2"
        (tsl.map (fun t => (t, PFloat.fin v)))).2 from rfl]
    rw [ingest_const_results 0 "A" "co2" v _ emptyBufs hlv hempty,
      List.length_map]
  · have htsl : tsl ≠ [] := by
      intro h
      subst h
      simp at h3
    have hne : tsl.map (fun t => ((t : ℚ), PFloat.fin v)) ≠ [] := by
      simpa using htsl
    obtain ⟨buf, hfold, hbne, hbv⟩ :=
      fold_push_const v (tsl.map (fun t => (t, PFloat.fin v))) none hne hlv
        (by simp)
    have hstore : (constRun v tsl).1 ("A", "co2") = some buf := by
      rw [show (constRun v tsl).1 =
        (ingestList 0 emptyBufs "A" "co2"
          (tsl.map (fun t => (t, PFloat.fin v)))).1 from rfl]
      rw [ingestList_store_key]
      exact hfold
    have hwv : windowVals (constRun v tsl).1 "A" "co2" =
        (buf.map Prod.snd).map (fun _ => v) := by
      rw [windowVals, hstore]
      rw [show (some buf).getD ([] : List Sample) = buf from rfl]
      rw [finVals_const _ v (by
        intro p hp
        rcases List.mem_map.mp hp with ⟨s, hsmem, rfl⟩
        exact hbv s hsmem)]
      rfl
    have hmv : mean (windowVals (constRun v tsl).1 "A" "co2") = v := by
      rw [hwv]
      exact mean_const _ v (by simpa using hbne) (by
        intro x hx
        rcases List.mem_map.mp hx with ⟨s, _, rfl⟩
        rfl)
    rw [hmv, sub_self, zero_div]

/-- C6 witness: three samples of value 7 at timestamps 0, 1, 2. -/
theorem c6_constant_never_anomalous_witness :
    3 ≤ ([0, 1, 2] : List ℚ).length ∧
      ((constRun 7 [0, 1, 2]).2 =
          List.replicate ([0, 1, 2] : List ℚ).length none ∧
        (((7 : ℚ) : ℝ) -
            ((mean (windowVals (constRun 7 [0, 1, 2]).1 "A" "co2") : ℚ) : ℝ)) /
            (Real.sqrt
                ((var (windowVals (constRun 7 [0, 1, 2]).1 "A" "co2") : ℚ) : ℝ) +
              ((EPS : ℚ) : ℝ)) = 0) :=
  ⟨by decide, c6_constant_never_anomalous 7 [0, 1, 2] (by decide)⟩

/-- The square-root-free trigger test is exactly the source condition
abs(z) > Z_THRESHOLD with z = (latest - mu) / (sqrt(var) + EPS), read in
exact real arithmetic. -/
theorem trigger_iff_real (vals : List ℚ) :
    trigger vals = true ↔
      ((Z_THRESHOLD : ℚ) : ℝ) <
        |((vals.getLastD 0 : ℚ) : ℝ) - ((mean vals : ℚ) : ℝ)| /
          (Real.sqrt ((var vals : ℚ) : ℝ) + ((EPS : ℚ) : ℝ)) := by
  have hVq : 0 ≤ var vals := by
    rw [var]
    apply div_nonneg
    · apply List.sum_nonneg
      intro x hx
      rcases List.mem_map.mp hx with ⟨y, _, rfl⟩
      positivity
    · positivity
  have hT : (0 : ℝ) < ((Z_THRESHOLD : ℚ) : ℝ) := by
    rw [show ((Z_THRESHOLD : ℚ) : ℝ) = 5 / 2 by norm_num [Z_THRESHOLD]]
    norm_num
  have he : (0 : ℝ) < ((EPS : ℚ) : ℝ) := by
    rw [show ((EPS : ℚ) : ℝ) = 1 / 1000000000 by norm_num [EPS]]
    norm_num
  have hV : (0 : ℝ) ≤ ((var vals : ℚ) : ℝ) := by exact_mod_cast hVq
  have hs : 0 ≤ Real.sqrt ((var vals : ℚ) : ℝ) := Real.sqrt_nonneg _
  have hden : 0 < Real.sqrt ((var vals : ℚ) : ℝ) + ((EPS : ℚ) : ℝ) := by
    linarith
  rw [lt_div_iff₀ hden]
  simp only [trigger, decide_eq_true_eq]
  have habs : ((|vals.getLastD 0 - mean vals| : ℚ) : ℝ) =
      |((vals.getLastD 0 : ℚ) : ℝ) - ((mean vals : ℚ) : ℝ)| := by
    push_cast
    rfl
  constructor
  · rintro ⟨h1, h2⟩
    have h1R : ((Z_THRESHOLD : ℚ) : ℝ) * ((EPS : ℚ) : ℝ) <
        |((vals.getLastD 0 : ℚ) : ℝ) - ((mean vals : ℚ) : ℝ)| := by
      rw [← habs]
      exact_mod_cast h1
    have h2R : ((Z_THRESHOLD : ℚ) : ℝ) ^ 2 * ((var vals : ℚ) : ℝ) <
        (|((vals.getLastD 0 : ℚ) : ℝ) - ((mean vals : ℚ) : ℝ)| -
          ((Z_THRESHOLD : ℚ) : ℝ) * ((EPS : ℚ) : ℝ)) ^ 2 := by
      rw [← habs]
      exact_mod_cast h2
    have hTs : ((Z_THRESHOLD : ℚ) : ℝ) * Real.sqrt ((var vals : ℚ) : ℝ) <
        |((vals.getLastD 0 : ℚ) : ℝ) - ((mean vals : ℚ) : ℝ)| -
          ((Z_THRESHOLD : ℚ) : ℝ) * ((EPS : ℚ) : ℝ) := by
      by_contra hc
      push_neg at hc
      have h0 : (0 : ℝ) <
          |((vals.getLastD 0 : ℚ) : ℝ) - ((mean vals : ℚ) : ℝ)| -
            ((Z_THRESHOLD : ℚ) : ℝ) * ((EPS : ℚ) : ℝ) := by linarith
      have hle := pow_le_pow_left₀ (le_of_lt h0) hc 2
      have hsq : (((Z_THRESHOLD : ℚ) : ℝ) * Real.sqrt ((var vals : ℚ) : ℝ)) ^ 2 =
          ((Z_THRESHOLD : ℚ) : ℝ) ^ 2 * ((var vals : ℚ) : ℝ) := by
        rw [mul_pow, Real.sq_sqrt hV]
      linarith [hle, hsq ▸ hle]
    nlinarith [hTs, h1R]
  · intro h
    have hTs : ((Z_THRESHOLD : ℚ) : ℝ) * Real.sqrt ((var vals : ℚ) : ℝ) +
        ((Z_THRESHOLD : ℚ) : ℝ) * ((EPS : ℚ) : ℝ) <
        |((vals.getLastD 0 : ℚ) : ℝ) - ((mean vals : ℚ) : ℝ)| := by
      nlinarith [h]
    have hTsnn : 0 ≤ ((Z_THRESHOLD : ℚ) : ℝ) * Real.sqrt ((var vals : ℚ) : ℝ) :=
      mul_nonneg (le_of_lt hT) hs
    have h1R : ((Z_THRESHOLD : ℚ) : ℝ) * ((EPS : ℚ) : ℝ) <
        |((vals.getLastD 0 : ℚ) : ℝ) - ((mean vals : ℚ) : ℝ)| := by linarith
    have hlt : ((Z_THRESHOLD : ℚ) : ℝ) * Real.sqrt ((var vals : ℚ) : ℝ) <
        |((vals.getLastD 0 : ℚ) : ℝ) - ((mean vals : ℚ) : ℝ)| -
          ((Z_THRESHOLD : ℚ) : ℝ) * ((EPS : ℚ) : ℝ) := by linarith
    have hmul := mul_self_lt_mul_self hTsnn hlt
    have hsq : (((Z_THRESHOLD : ℚ) : ℝ) * Real.sqrt ((var vals : ℚ) : ℝ)) *
        (((Z_THRESHOLD : ℚ) : ℝ) * Real.sqrt ((var vals : ℚ) : ℝ)) =
        ((Z_THRESHOLD : ℚ) : ℝ) ^ 2 * ((var vals : ℚ) : ℝ) := by
      rw [show (((Z_THRESHOLD : ℚ) : ℝ) * Real.sqrt ((var vals : ℚ) : ℝ)) *
          (((Z_THRESHOLD : ℚ) : ℝ) * Real.sqrt ((var vals : ℚ) : ℝ)) =
          ((Z_THRESHOLD : ℚ) : ℝ) ^ 2 *
            (Real.sqrt ((var vals : ℚ) : ℝ) * Real.sqrt ((var vals : ℚ) : ℝ))
        by ring]
      rw [Real.mul_self_sqrt hV]
    refine ⟨?_, ?_⟩
    · exact_mod_cast habs ▸ h1R
    · have h2R : ((Z_THRESHOLD : ℚ) : ℝ) ^ 2 * ((var vals : ℚ) : ℝ) <
          (|((vals.getLastD 0 : ℚ) : ℝ) - ((mean vals : ℚ) : ℝ)| -
            ((Z_THRESHOLD : ℚ) : ℝ) * ((EPS : ℚ) : ℝ)) ^ 2 := by
        nlinarith [hmul, hsq]
      exact_mod_cast habs ▸ h2R

/-- C1 counterexample: ingesting the window [10, 10, 10, 100] (all four
samples within window_duration, 100 last) produces NO anomaly: every one
of the four evaluations, including the one right after 100 is appended,
returns none, because z = 67.5 / (sqrt(1518.75) + 1e-9) is about 1.73,
below the threshold 2.5. -/
theorem c1_counterexample :
    (ingestList 0 emptyBufs "A" "co2"
        [(0, .fin 10), (1, .fin 10), (2, .fin 10), (3, .fin 100)]).2 =
      [none, none, none, none] := by
  decide

/-- C1 amended: for the window [10, 10, 10, 100] the mean is 32.5 as the
claim computes, but the z-score of the latest value 100 - the source
expression (latest - mu) / (sqrt(var) + EPS) - stays BELOW the threshold
2.5 (it equals 67.5 / (sqrt(1518.75) + 1e-9), roughly 1.73), so no
anomaly record is produced: the evaluator returns none on each of the
four ingestions. -/
theorem c1_mean_but_no_anomaly :
    mean [10, 10, 10, 100] = 65 / 2 ∧
      (ingestList 0 emptyBufs "A" "co2"
          [(0, .fin 10), (1, .fin 10), (2, .fin 10), (3, .fin 100)]).2 =
        [none, none, none, none] ∧
      (((100 : ℚ) : ℝ) - ((mean [10, 10, 10, 100] : ℚ) : ℝ)) /
          (Real.sqrt ((var [10, 10, 10, 100] : ℚ) : ℝ) + ((EPS : ℚ) : ℝ)) <
        ((Z_THRESHOLD : ℚ) : ℝ) := by
  have hm : mean [10, 10, 10, 100] = 65 / 2 := by decide
  have hv : var ([10, 10, 10, 100] : List ℚ) = 6075 / 4 := by decide
  refine ⟨hm, by decide, ?_⟩
  rw [hm, hv]
  have hnum : ((100 : ℚ) : ℝ) - ((65 / 2 : ℚ) : ℝ) = 135 / 2 := by
    push_cast
    norm_num
  have hVc : ((6075 / 4 : ℚ) : ℝ) = 6075 / 4 := by
    push_cast
    norm_num
  have hsq : (27 : ℝ) < Real.sqrt ((6075 / 4 : ℚ) : ℝ) := by
    rw [hVc]
    rw [Real.lt_sqrt (by norm_num)]
    norm_num
  have he : (0 : ℝ) < ((EPS : ℚ) : ℝ) := by
    rw [show ((EPS : ℚ) : ℝ) = 1 / 1000000000 by norm_num [EPS]]
    norm_num
  have hZ : ((Z_THRESHOLD : ℚ) : ℝ) = 5 / 2 := by norm_num [Z_THRESHOLD]
  rw [hnum, hZ]
  have hden : (27 : ℝ) < Real.sqrt ((6075 / 4 : ℚ) : ℝ) + ((EPS : ℚ) : ℝ) := by
    linarith
  have hstep : (135 / 2 : ℝ) / (Real.sqrt ((6075 / 4 : ℚ) : ℝ) + ((EPS : ℚ) : ℝ)) <
      (135 / 2 : ℝ) / 27 :=
    div_lt_div_of_pos_left (by norm_num) (by norm_num) hden
  have : (135 / 2 : ℝ) / 27 = 5 / 2 := by norm_num
  linarith

/-- C4 counterexample: the record identifier is built from
datetime.utcnow(), not from (entity, metric, window_end): evaluating the
identical ten-sample window twice, with the wall clock reading 0 and then
1, yields records with two different ids. -/
theorem c4_counterexample :
    (check_anomaly 0 stTen "A" "co2").map Anomaly.id = some "anom-A-co2-0" ∧
      (check_anomaly 1 stTen "A" "co2").map Anomaly.id = some "anom-A-co2-1" := by
  refine ⟨by decide, by decide⟩

/-- C4 amended: the identifier is a deterministic function of
(entity_id, metric_name, wall-clock second at evaluation time): every
produced record's id is exactly "anom-" + roomId + "-" + metric + "-" +
the integer clock reading, so two evaluations of the same window give the
same id exactly when they happen during the same wall-clock second, and
the id does not depend on window_end. -/
theorem c4_id_from_wall_clock (now : ℤ) (bufs : Buffers)
    (roomId metric : String) (a : Anomaly)
    (h : check_anomaly now bufs roomId metric = some a) :
    a.id = "anom-" ++ roomId ++ "-" ++ metric ++ "-" ++ toString now := by
  unfold check_anomaly at h
  split at h
  · exact absurd h (by simp)
  · split at h
    · exact absurd h (by simp)
    · split at h
      · exact absurd h (by simp)
      · split at h
        · injection h with h
          subst h
          rfl
        · exact absurd h (by simp)

/-- C4 amended witness: on the concrete triggering window stTen with the
clock at 0 the produced record carries exactly that id. -/
theorem c4_id_from_wall_clock_witness :
    check_anomaly 0 stTen "A" "co2" = some anomTen ∧
      anomTen.id = "anom-" ++ "A" ++ "-" ++ "co2" ++ "-" ++ toString (0 : ℤ) :=
  ⟨by decide, c4_id_from_wall_clock 0 stTen "A" "co2" anomTen (by decide)⟩

end EcoGuardian
